import Mathlib

/-!
Verification of `bitcoinlib/transactions.py`: a codec and verifier for
legacy pay-to-public-key-hash transactions.  The Python source is embedded
shallowly: byte strings become `List Nat`, Python slices become
`(List.drop _).take _` (which silently truncates, like Python), and code
that can raise becomes `Except Err`.
-/

set_option maxRecDepth 10000

/-- Errors of the embedded program.  `transactionError` mirrors the Python
`TransactionError` (with its message); `formatError` is a failure of the
VarInt codec (the spec's `FormatError` taxonomy); `indexError` models a
Python `IndexError` on out-of-range byte access; `structError` models
`struct.error` raised by `struct.pack` on an out-of-range value. -/
inductive Err where
  | transactionError : String → Err
  | formatError : String → Err
  | indexError : Err
  | structError : Err
deriving DecidableEq

/-- The spec's `FormatError` taxonomy: malformed or truncated wire data.
Both `TransactionError` raised by `transactions.py` and the VarInt codec
failures fall under it. -/
def Err.isFormat : Err → Bool
  | .transactionError _ => true
  | .formatError _ => true
  | _ => false

instance {α : Type} [DecidableEq α] : DecidableEq (Except Err α) := fun a b =>
  match a, b with
  | .ok x, .ok y =>
    if h : x = y then .isTrue (by rw [h]) else .isFalse (by intro hc; cases hc; exact h rfl)
  | .error x, .error y =>
    if h : x = y then .isTrue (by rw [h]) else .isFalse (by intro hc; cases hc; exact h rfl)
  | .ok _, .error _ => .isFalse (by intro hc; cases hc)
  | .error _, .ok _ => .isFalse (by intro hc; cases hc)

/-- Python slicing `l[a : a + n]`: drops `a` elements, then takes at most `n`.
Like Python, it silently truncates at the end of the list. -/
def pySlice (l : List Nat) (a n : Nat) : List Nat := (l.drop a).take n

/-- Python indexing `l[i]` on a bytes object: raises `IndexError` when out
of range. -/
def getB (l : List Nat) (i : Nat) : Except Err Nat :=
  match l.get? i with
  | some b => .ok b
  | none => .error .indexError

/-- `change_base(x, 256, 10)`: the big-endian base-256 value of a byte
string. -/
def beNat (l : List Nat) : Nat := l.foldl (fun a b => a * 256 + b) 0

/-- Little-endian base-256 value of a byte string (the code always writes
`change_base(bytes[::-1], 256, 10)`). -/
def leNat (l : List Nat) : Nat := beNat l.reverse

/-- `w` little-endian bytes of `n` (the byte strings produced by
`struct.pack('<Q', n)` and `struct.pack('<L', n)` for in-range `n`). -/
def leBytes : Nat → Nat → List Nat
  | _, 0 => []
  | n, w + 1 => n % 256 :: leBytes (n / 256) w

/-- `struct.pack('B', n)`: one byte; `struct.error` when `n ≥ 256`. -/
def packB (n : Nat) : Except Err (List Nat) :=
  if n < 256 then .ok [n] else .error .structError

/-- `struct.pack('<Q', n)`: eight little-endian bytes; `struct.error` when
`n ≥ 2^64`. -/
def packQ (n : Nat) : Except Err (List Nat) :=
  if n < 2 ^ 64 then .ok (leBytes n 8) else .error .structError

/-- `struct.pack('<L', n)`: four little-endian bytes; `struct.error` when
`n ≥ 2^32`. -/
def packL (n : Nat) : Except Err (List Nat) :=
  if n < 2 ^ 32 then .ok (leBytes n 4) else .error .structError

/-- Modelled from the spec: `varbyteint_to_int` of `bitcoinlib/encoding.py`
(that file is not under `src/`).  Spec §4.1: the first byte determines the
width — values 0–252 are literal; prefix 253 is followed by a little-endian
16-bit value, 254 by a 32-bit value, 255 by a 64-bit value; it fails with
`FormatError` if fewer bytes remain than the selected width requires.
Returns the value and the total number of bytes consumed. -/
def varbyteint_to_int (buf : List Nat) : Except Err (Nat × Nat) :=
  match buf with
  | [] => .error (.formatError "varbyteint_to_int: empty input")
  | b :: rest =>
    if b ≤ 252 then .ok (b, 1)
    else
      let w : Nat := if b = 253 then 2 else if b = 254 then 4 else 8
      if rest.length < w then .error (.formatError "varbyteint_to_int: truncated")
      else .ok (leNat (rest.take w), w + 1)

/-- Modelled from the spec: `int_to_varbyteint` of `bitcoinlib/encoding.py`
(not under `src/`).  Spec §4.1: the inverse mapping, always choosing the
minimal-width encoding for a `u64` value. -/
def int_to_varbyteint (n : Nat) : List Nat :=
  if n ≤ 252 then [n]
  else if n ≤ 0xffff then 253 :: leBytes n 2
  else if n ≤ 0xffffffff then 254 :: leBytes n 4
  else 255 :: leBytes n 8

/-- The `Input` class: one transaction input. -/
structure Input where
  prev_hash : List Nat
  output_index : List Nat
  script_sig : List Nat
  sequence : List Nat
  id : Nat
deriving DecidableEq

/-- One transaction output, the `{'amount': ..., 'script': ...}` dict. -/
structure Output where
  amount : Nat
  script : List Nat
deriving DecidableEq

/-- The `Transaction` class. -/
structure Transaction where
  inputs : List Input
  outputs : List Output
  locktime : Nat
  version : List Nat
deriving DecidableEq

/-- The input loop of `deserialize_transaction` (lines 51–64): parses
`n` inputs starting at `cursor`, assigning ids from `i` upward.  The only
in-loop check is that the 32-byte previous-hash slice is non-empty. -/
def parseInputs (rawtx : List Nat) : Nat → Nat → Nat → Except Err (List Input × Nat)
  | cursor, _, 0 => .ok ([], cursor)
  | cursor, i, n + 1 =>
    let inp_hash := (pySlice rawtx cursor 32).reverse
    if inp_hash.length = 0 then
      .error (.transactionError "Input transaction hash not found. Probably malformed raw transaction")
    else
      let inp_index := (pySlice rawtx (cursor + 32) 4).reverse
      match varbyteint_to_int (pySlice rawtx (cursor + 36) 9) with
      | .error e => .error e
      | .ok (scriptsig_size, size) =>
        let scriptsig := pySlice rawtx (cursor + 36 + size) scriptsig_size
        let seqn := pySlice rawtx (cursor + 36 + size + scriptsig_size) 4
        match parseInputs rawtx (cursor + 36 + size + scriptsig_size + 4) (i + 1) n with
        | .error e => .error e
        | .ok (rest, cend) => .ok (⟨inp_hash, inp_index, scriptsig, seqn, i⟩ :: rest, cend)

/-- The output loop of `deserialize_transaction` (lines 71–78). -/
def parseOutputs (rawtx : List Nat) : Nat → Nat → Except Err (List Output × Nat)
  | cursor, 0 => .ok ([], cursor)
  | cursor, n + 1 =>
    let amount := beNat ((pySlice rawtx cursor 8).reverse)
    match varbyteint_to_int (pySlice rawtx (cursor + 8) 9) with
    | .error e => .error e
    | .ok (script_size, size) =>
      let script := pySlice rawtx (cursor + 8 + size) script_size
      match parseOutputs rawtx (cursor + 8 + size + script_size) n with
      | .error e => .error e
      | .ok (rest, cend) => .ok (⟨amount, script⟩ :: rest, cend)

/-- `deserialize_transaction(rawtx)` (lines 40–83). -/
def deserialize_transaction (rawtx : List Nat) : Except Err Transaction :=
  let version := (pySlice rawtx 0 4).reverse
  match varbyteint_to_int (pySlice rawtx 4 9) with
  | .error e => .error e
  | .ok (n_inputs, size) =>
    match parseInputs rawtx (4 + size) 0 n_inputs with
    | .error e => .error e
    | .ok (inputs, cursor) =>
      if inputs.length ≠ n_inputs then
        .error (.transactionError "Error parsing inputs. Number of tx specified but other number found")
      else
        match varbyteint_to_int (pySlice rawtx cursor 9) with
        | .error e => .error e
        | .ok (n_outputs, size2) =>
          match parseOutputs rawtx (cursor + size2) n_outputs with
          | .error e => .error e
          | .ok (outputs, c3) =>
            if outputs = [] then
              .error (.transactionError "Error no outputs found in this transaction")
            else
              .ok ⟨inputs, outputs, beNat ((pySlice rawtx c3 4).reverse), version⟩

/-- External collaborators consumed by `transactions.py` but implemented in
modules outside `src/` (`bitcoinlib.encoding.convert_der_sig`,
`bitcoinlib.keys.Key`, `hashlib`, `ecdsa`).  Modelled from the spec §6:
they are opaque to this core, so theorems quantify over them.
`convertDerSig` is the DER canonicalization routine (may reject malformed
data); `hash160u` is `Key(pk, compressed=False).hash160()` followed by
`unhexlify` — `hash160(publicKey) -> 20 bytes`; `pubUncompressed` is the
compressed-to-uncompressed key conversion; `fromString` is
`ecdsa.VerifyingKey.from_string(pk[1:], curve=SECP256k1)` (may reject, e.g.
wrong-length input); `checkSig vk sig digest` is the whole guarded
`try:` block — `vk.verify_digest(unhexlify(sig), digest)` — collapsed to a
boolean, `false` covering both a signature mismatch and any exception
raised inside the `try`; `sha256` is `hashlib.sha256(·).digest()`. -/
structure Externals where
  convertDerSig : List Nat → Except Err (List Nat)
  hash160u : List Nat → List Nat
  pubUncompressed : List Nat → Except Err (List Nat)
  fromString : List Nat → Except Err Unit
  checkSig : List Nat → List Nat → List Nat → Bool
  sha256 : List Nat → List Nat

/-- `parse_script_sig(s)` (lines 86–91): `l = s[0]`,
`sig = convert_der_sig(s[1:l])`, `l2 = s[l+1]`,
`public_key = s[l+2:l+l2+2]`.  The slices silently truncate; only the two
byte indexings can raise `IndexError`. -/
def parse_script_sig (E : Externals) (s : List Nat) : Except Err (List Nat × List Nat) :=
  match getB s 0 with
  | .error e => .error e
  | .ok l =>
    match E.convertDerSig ((s.drop 1).take (l - 1)) with
    | .error e => .error e
    | .ok sig =>
      match getB s (l + 1) with
      | .error e => .error e
      | .ok l2 => .ok (sig, (s.drop (l + 2)).take l2)

/-- The per-input body of `Transaction.input_addresses` (lines 136–144,
`return_type='hash160'`): extract the public key from the script_sig with
the same two indexings as `parse_script_sig` and hash it with the
uncompressed-key `hash160`. -/
def inputAddress (E : Externals) (i : Input) : Except Err (List Nat) :=
  match getB i.script_sig 0 with
  | .error e => .error e
  | .ok l =>
    match getB i.script_sig (l + 1) with
    | .error e => .error e
    | .ok l2 => .ok (E.hash160u ((i.script_sig.drop (l + 2)).take l2))

/-- `Transaction.input_addresses(id)` (lines 134–152): builds the list of
hash160 addresses over ALL inputs and returns `r[id]` — a positional list
index, raising `IndexError` when `id` is out of range. -/
def input_addresses (E : Externals) (t : Transaction) (id : Nat) : Except Err (List Nat) :=
  match t.inputs.mapM (inputAddress E) with
  | .error e => .error e
  | .ok r =>
    match r.get? id with
    | some h => .ok h
    | none => .error .indexError

/-- The script field emitted for one input by `Transaction.raw` (lines
169–175): full mode length-prefixes the actual script_sig with a single
`struct.pack('B', ...)` byte; signing mode substitutes the canonical
P2PKH script for the input whose id equals `sign_id` and a single zero
byte for every other input. -/
def rawInputScript (E : Externals) (t : Transaction) (sign_id : Option Nat) (i : Input) :
    Except Err (List Nat) :=
  match sign_id with
  | none =>
    match packB i.script_sig.length with
    | .error e => .error e
    | .ok p => .ok (p ++ i.script_sig)
  | some k =>
    if k = i.id then
      match input_addresses E t i.id with
      | .error e => .error e
      | .ok h => .ok ([0x19, 0x76, 0xa9, 0x14] ++ h ++ [0x88, 0xac])
    else .ok [0]

/-- The input loop of `Transaction.raw` (lines 167–176). -/
def rawInputs (E : Externals) (t : Transaction) (sign_id : Option Nat) :
    List Input → Except Err (List Nat)
  | [] => .ok []
  | i :: rest =>
    match rawInputScript E t sign_id i with
    | .error e => .error e
    | .ok sf =>
      match rawInputs E t sign_id rest with
      | .error e => .error e
      | .ok rs => .ok (i.prev_hash.reverse ++ i.output_index.reverse ++ sf ++ i.sequence ++ rs)

/-- The output loop of `Transaction.raw` (lines 178–181). -/
def rawOutputs : List Output → Except Err (List Nat)
  | [] => .ok []
  | o :: rest =>
    match packQ o.amount with
    | .error e => .error e
    | .ok a =>
      match packB o.script.length with
      | .error e => .error e
      | .ok p =>
        match rawOutputs rest with
        | .error e => .error e
        | .ok rs => .ok (a ++ p ++ o.script ++ rs)

/-- `Transaction.raw(sign_id)` (lines 164–185). -/
def Transaction.raw (t : Transaction) (E : Externals) (sign_id : Option Nat) :
    Except Err (List Nat) :=
  match rawInputs E t sign_id t.inputs with
  | .error e => .error e
  | .ok ri =>
    match rawOutputs t.outputs with
    | .error e => .error e
    | .ok ro =>
      match packL t.locktime with
      | .error e => .error e
      | .ok lt =>
        .ok (t.version.reverse ++ int_to_varbyteint t.inputs.length ++ ri
          ++ int_to_varbyteint t.outputs.length ++ ro ++ lt
          ++ (match sign_id with | none => [] | some _ => [1, 0, 0, 0]))

/-- The body of `Transaction.verify`'s loop BEFORE the `try:` block (lines
189–194): build the signing preimage, double-hash it, parse the
script_sig, decompress a 33-byte public key, and construct the verifying
key from `pub_key[1:]`.  Any exception here propagates to the caller.
Returns the parsed signature, the digest, and the (possibly decompressed)
public key. -/
def verifyInputPre (E : Externals) (t : Transaction) (i : Input) :
    Except Err (List Nat × List Nat × List Nat) :=
  match t.raw E (some i.id) with
  | .error e => .error e
  | .ok t_to_sign =>
    let hashtosign := E.sha256 (E.sha256 t_to_sign)
    match parse_script_sig E i.script_sig with
    | .error e => .error e
    | .ok (signature, pub_key) =>
      match (if pub_key.length = 33 then E.pubUncompressed pub_key else .ok pub_key) with
      | .error e => .error e
      | .ok pk2 =>
        match E.fromString (pk2.drop 1) with
        | .error e => .error e
        | .ok _ => .ok (signature, hashtosign, pk2)

/-- The loop of `Transaction.verify` (lines 188–201): per input, run the
pre-steps (whose exceptions propagate), then the guarded `verify_digest`
call; on a failed check return `False` at once, otherwise continue; after
the loop return `True`. -/
def verifyLoop (E : Externals) (t : Transaction) : List Input → Except Err Bool
  | [] => .ok true
  | i :: rest =>
    match verifyInputPre E t i with
    | .error e => .error e
    | .ok (signature, hashtosign, vk) =>
      if E.checkSig vk signature hashtosign then verifyLoop E t rest
      else .ok false

/-- `Transaction.verify()` (lines 187–201). -/
def Transaction.verify (t : Transaction) (E : Externals) : Except Err Bool :=
  verifyLoop E t t.inputs

/-- Whether one input's whole check (pre-steps plus guarded signature
check) passes. -/
def inputPasses (E : Externals) (t : Transaction) (i : Input) : Bool :=
  match verifyInputPre E t i with
  | .ok (signature, hashtosign, vk) => E.checkSig vk signature hashtosign
  | .error _ => false

/-! ## Spec-side definitions

Definitions named `spec...` follow the SPEC's words, to be compared with
the code-derived functions above; the remaining helpers below restate the
wire layout compositionally so that round-trip theorems do not merely
unfold `Transaction.raw`. -/

/-- The serialized form of one input in full mode: reversed hash, reversed
index, one length byte, the script_sig, the sequence. -/
def encInput (i : Input) : List Nat :=
  i.prev_hash.reverse ++ i.output_index.reverse
    ++ ([i.script_sig.length] ++ i.script_sig) ++ i.sequence

/-- Full-mode serialization of an input list. -/
def encInputs (l : List Input) : List Nat := (l.map encInput).flatten

/-- The serialized form of one output: little-endian amount, one length
byte, the script. -/
def encOutput (o : Output) : List Nat :=
  leBytes o.amount 8 ++ ([o.script.length] ++ o.script)

/-- Serialization of an output list. -/
def encOutputs (l : List Output) : List Nat := (l.map encOutput).flatten

/-- Follows the spec's words (§4.2 full mode): serialize the version
little-endian, a VarInt input count, then for every input the reversed
`prev_tx_hash`, reversed `output_index`, VarInt-prefixed `script_sig` and
raw `sequence`; then a VarInt output count, then per output the
little-endian amount and VarInt-prefixed script; then the little-endian
locktime.  Differs from the code by using the VarInt codec (not a single
`struct.pack('B', ...)` byte) for the script length prefixes. -/
def specFullEncode (t : Transaction) : List Nat :=
  t.version.reverse ++ int_to_varbyteint t.inputs.length
    ++ (t.inputs.map (fun i => i.prev_hash.reverse ++ i.output_index.reverse
        ++ int_to_varbyteint i.script_sig.length ++ i.script_sig ++ i.sequence)).flatten
    ++ int_to_varbyteint t.outputs.length
    ++ (t.outputs.map (fun o => leBytes o.amount 8
        ++ int_to_varbyteint o.script.length ++ o.script)).flatten
    ++ leBytes t.locktime 4

/-- The public key an input's script_sig holds at the layout
`[len1][sig...][len2][public key]`, as the code recovers it (total
version of the two indexings; meaningful under the bounds that make them
succeed). -/
def recoveredPubKey (s : List Nat) : List Nat :=
  (s.drop (s.headD 0 + 2)).take (s.getD (s.headD 0 + 1) 0)

/-- The script field the claim describes for signing-preimage mode: the
canonical 25-byte P2PKH script, length-prefixed with `0x19`, for the input
whose id is `k`; a single zero byte for every other input. -/
def signField (E : Externals) (k : Nat) (i : Input) : List Nat :=
  if i.id = k then
    [0x19, 0x76, 0xa9, 0x14] ++ E.hash160u (recoveredPubKey i.script_sig) ++ [0x88, 0xac]
  else [0]

/-- Follows the spec's words (§4.2 signing-preimage mode): identical
structure to the full-mode encoding, except that the script field of the
input with `id = k` is the canonical P2PKH script built from that input's
own recovered public key, every other input's script field is a single
zero byte, and the four SIGHASH_ALL bytes `[1, 0, 0, 0]` follow the
locktime. -/
def specSignPreimage (E : Externals) (t : Transaction) (k : Nat) : List Nat :=
  t.version.reverse ++ int_to_varbyteint t.inputs.length
    ++ (t.inputs.map (fun i => i.prev_hash.reverse ++ i.output_index.reverse
        ++ signField E k i ++ i.sequence)).flatten
    ++ int_to_varbyteint t.outputs.length ++ encOutputs t.outputs
    ++ leBytes t.locktime 4 ++ [1, 0, 0, 0]

/-- The decoder's id reassignment: input `p` of the result carries
`id = j + p`. -/
def reindexInputs (j : Nat) : List Input → List Input
  | [] => []
  | i :: rest =>
    ⟨i.prev_hash, i.output_index, i.script_sig, i.sequence, j⟩ :: reindexInputs (j + 1) rest

/-- Modelled from the spec: one input "can be fully parsed before the
buffer ends" when every one of its reads (32-byte hash, 4-byte index, the
script-length VarInt, `scriptsig_size` script bytes, 4-byte sequence) lies
inside the buffer.  Returns the cursor after the input, or `none`. -/
def strictParseInput (rawtx : List Nat) (cursor : Nat) : Option Nat :=
  if cursor + 36 ≤ rawtx.length then
    match varbyteint_to_int (pySlice rawtx (cursor + 36) 9) with
    | .error _ => none
    | .ok (ssize, size) =>
      if cursor + 36 + size + ssize + 4 ≤ rawtx.length then
        some (cursor + 36 + size + ssize + 4)
      else none
  else none

/-- Modelled from the spec: the number of inputs (at most `n`) that can be
fully parsed starting at `cursor` before the buffer ends. -/
def parseableInputs (rawtx : List Nat) : Nat → Nat → Nat
  | _, 0 => 0
  | cursor, n + 1 =>
    match strictParseInput rawtx cursor with
    | some c2 => parseableInputs rawtx c2 n + 1
    | none => 0

/-! ## Concrete instances used by witnesses and counterexamples -/

/-- A concrete instantiation of the external collaborators: the DER
canonicalizer is the identity, `hash160` returns twenty zero bytes, key
decompression returns a fixed 65-byte key, verifying-key construction
always succeeds, and every signature check passes. -/
def E0 : Externals :=
  ⟨fun bs => .ok bs, fun _ => List.replicate 20 0, fun _ => .ok (4 :: List.replicate 64 0),
    fun _ => .ok (), fun _ _ _ => true, fun _ => []⟩

/-- Like `E0` but every guarded signature check fails. -/
def Efail : Externals :=
  ⟨fun bs => .ok bs, fun _ => List.replicate 20 0, fun _ => .ok (4 :: List.replicate 64 0),
    fun _ => .ok (), fun _ _ _ => false, fun _ => []⟩

/-- A minimal well-formed transaction: one input with empty script_sig,
one output with empty script. -/
def T1 : Transaction :=
  ⟨[⟨List.replicate 32 0, [0, 0, 0, 0], [], [0, 0, 0, 0], 0⟩], [⟨0, []⟩], 0, [0, 0, 0, 1]⟩

/-- A transaction with a parseable script_sig `[1, 9, 1, 7]`
(`len1 = 1`, one signature byte, `len2 = 1`, public key `[7]`). -/
def T2 : Transaction :=
  ⟨[⟨List.replicate 32 0, [0, 0, 0, 0], [1, 9, 1, 7], [0, 0, 0, 0], 0⟩],
    [⟨0, []⟩], 0, [0, 0, 0, 1]⟩

/-- A transaction whose single input carries a 253-byte script_sig: the
boundary at which `struct.pack('B', ...)` and the VarInt codec part
ways. -/
def T253 : Transaction :=
  ⟨[⟨List.replicate 32 0, [0, 0, 0, 0], List.replicate 253 0, [0, 0, 0, 0], 0⟩],
    [⟨0, []⟩], 0, [0, 0, 0, 1]⟩

/-- The bytes `T253.raw E0 none` produces. -/
def T253bytes : List Nat :=
  [1, 0, 0, 0, 1] ++ List.replicate 32 0 ++ [0, 0, 0, 0, 253] ++ List.replicate 253 0
    ++ [0, 0, 0, 0, 1] ++ List.replicate 8 0 ++ [0, 0, 0, 0, 0]

/-! ## Byte-level helper lemmas -/

lemma length_leBytes (n w : Nat) : (leBytes n w).length = w := by
  induction w generalizing n with
  | zero => rfl
  | succ w ih => simp [leBytes, ih]

lemma beNat_append_singleton (xs : List Nat) (b : Nat) :
    beNat (xs ++ [b]) = beNat xs * 256 + b := by
  simp [beNat, List.foldl_append]

lemma leNat_cons (b : Nat) (l : List Nat) : leNat (b :: l) = leNat l * 256 + b := by
  simp [leNat, List.reverse_cons, beNat_append_singleton]

lemma leNat_leBytes (n w : Nat) (h : n < 2 ^ (8 * w)) : leNat (leBytes n w) = n := by
  induction w generalizing n with
  | zero =>
    interval_cases n
    rfl
  | succ w ih =>
    have hd : n / 256 < 2 ^ (8 * w) := by
      apply Nat.div_lt_of_lt_mul
      calc n < 2 ^ (8 * (w + 1)) := h
        _ = 256 * 2 ^ (8 * w) := by ring
    rw [leBytes, leNat_cons, ih _ hd]
    omega

lemma drop_of_drop_eq {r x y : List Nat} {c : Nat} (h : r.drop c = x ++ y) :
    r.drop (c + x.length) = y := by
  rw [← List.drop_drop, h, List.drop_left]

lemma pySlice_of_drop_eq {r x y : List Nat} {c n : Nat} (h : r.drop c = x ++ y)
    (hn : x.length = n) : pySlice r c n = x := by
  rw [pySlice, h, List.take_left' hn]

lemma pySlice_nil {r : List Nat} {c : Nat} (h : r.length ≤ c) (n : Nat) :
    pySlice r c n = [] := by
  rw [pySlice, List.drop_eq_nil_of_le h, List.take_nil]

lemma pySlice_nonempty {r : List Nat} {c : Nat} (h : c < r.length) :
    (pySlice r c 32).length ≠ 0 := by
  rw [pySlice, List.length_take, List.length_drop]
  omega

/-- The VarInt codec round-trips: decoding a minimal encoding followed by
anything (cut to the 9-byte window the transaction codec always passes)
yields the value back and consumes exactly the encoding's length. -/
lemma varbyteint_roundtrip (n : Nat) (h : n < 2 ^ 64) (rest : List Nat) :
    varbyteint_to_int ((int_to_varbyteint n ++ rest).take 9) =
      .ok (n, (int_to_varbyteint n).length) := by
  by_cases h1 : n ≤ 252
  · rw [int_to_varbyteint, if_pos h1]
    simp [varbyteint_to_int, h1]
  by_cases h2 : n ≤ 0xffff
  · rw [int_to_varbyteint, if_neg h1, if_pos h2]
    have hlen : (leBytes n 2).length = 2 := length_leBytes n 2
    have hval : leNat (leBytes n 2) = n := leNat_leBytes n 2 (by omega)
    have hcons : ((253 :: leBytes n 2) ++ rest).take 9
        = 253 :: (leBytes n 2 ++ rest).take 8 := by simp
    rw [hcons]
    have hlen8 : ¬ ((leBytes n 2 ++ rest).take 8).length < 2 := by
      rw [List.length_take, List.length_append, hlen]
      omega
    have htk : ((leBytes n 2 ++ rest).take 8).take 2 = leBytes n 2 := by
      rw [List.take_take, show (2 : Nat) ⊓ 8 = 2 from rfl, List.take_left' hlen]
    norm_num [varbyteint_to_int, hlen8, htk, hval, hlen]
  by_cases h3 : n ≤ 0xffffffff
  · rw [int_to_varbyteint, if_neg h1, if_neg h2, if_pos h3]
    have hlen : (leBytes n 4).length = 4 := length_leBytes n 4
    have hval : leNat (leBytes n 4) = n := leNat_leBytes n 4 (by omega)
    have hcons : ((254 :: leBytes n 4) ++ rest).take 9
        = 254 :: (leBytes n 4 ++ rest).take 8 := by simp
    rw [hcons]
    have hlen8 : ¬ ((leBytes n 4 ++ rest).take 8).length < 4 := by
      rw [List.length_take, List.length_append, hlen]
      omega
    have htk : ((leBytes n 4 ++ rest).take 8).take 4 = leBytes n 4 := by
      rw [List.take_take, show (4 : Nat) ⊓ 8 = 4 from rfl, List.take_left' hlen]
    norm_num [varbyteint_to_int, hlen8, htk, hval, hlen]
  · rw [int_to_varbyteint, if_neg h1, if_neg h2, if_neg h3]
    have hlen : (leBytes n 8).length = 8 := length_leBytes n 8
    have hval : leNat (leBytes n 8) = n := leNat_leBytes n 8 (by rw [show 8 * 8 = 64 from rfl]; exact h)
    have hcons : ((255 :: leBytes n 8) ++ rest).take 9
        = 255 :: (leBytes n 8 ++ rest).take 8 := by simp
    rw [hcons]
    have hlen8 : ¬ ((leBytes n 8 ++ rest).take 8).length < 8 := by
      rw [List.length_take, List.length_append, hlen]
      omega
    have htk8 : (leBytes n 8 ++ rest).take 8 = leBytes n 8 := List.take_left' hlen
    have htk : ((leBytes n 8 ++ rest).take 8).take 8 = leBytes n 8 := by
      rw [htk8, List.take_of_length_le (le_of_eq hlen)]
    norm_num [varbyteint_to_int, hlen8, htk, hval, hlen]
    rw [List.take_of_length_le (le_of_eq hlen)]
    exact hval

/-- Valid field widths for an input, per the spec's data model (§3), plus
a script_sig short enough for the single-byte length prefix to agree with
the VarInt codec. -/
def WfInput (i : Input) : Prop :=
  i.prev_hash.length = 32 ∧ i.output_index.length = 4 ∧ i.sequence.length = 4 ∧
    i.script_sig.length ≤ 252

instance (i : Input) : Decidable (WfInput i) := by unfold WfInput; infer_instance

/-- Valid field values for an output: a `u64` amount and a script short
enough for the single-byte length prefix to agree with the VarInt codec. -/
def WfOutput (o : Output) : Prop :=
  o.amount < 2 ^ 64 ∧ o.script.length ≤ 252

instance (o : Output) : Decidable (WfOutput o) := by unfold WfOutput; infer_instance

lemma varbyteint_first_byte {r : List Nat} {c b : Nat} {restl : List Nat}
    (hd : r.drop c = b :: restl) (hb : b ≤ 252) :
    varbyteint_to_int (pySlice r c 9) = .ok (b, 1) := by
  rw [pySlice, hd]
  simp [varbyteint_to_int, hb]

lemma encInputs_cons (i : Input) (l : List Input) :
    encInputs (i :: l) = encInput i ++ encInputs l := by
  simp [encInputs]

lemma encOutputs_cons (o : Output) (l : List Output) :
    encOutputs (o :: l) = encOutput o ++ encOutputs l := by
  simp [encOutputs]

/-- The decoder's input loop inverts the full-mode input serialization,
reassigning ids positionally from `j`. -/
lemma parseInputs_roundtrip (r : List Nat) (l : List Input) (tail : List Nat)
    (hwf : ∀ i ∈ l, WfInput i) :
    ∀ c j, r.drop c = encInputs l ++ tail →
      parseInputs r c j l.length = .ok (reindexInputs j l, c + (encInputs l).length) := by
  induction l with
  | nil =>
    intro c j _
    simp [encInputs, parseInputs, reindexInputs]
  | cons i l ih =>
    intro c j hdrop
    obtain ⟨h32, h4, hseq, hss⟩ := hwf i (List.mem_cons_self i l)
    rw [encInputs_cons, List.append_assoc] at hdrop
    -- peel the five fields of `encInput i` off the front
    have e0 : r.drop c = i.prev_hash.reverse
        ++ (i.output_index.reverse ++ (([i.script_sig.length] ++ i.script_sig) ++ (i.sequence ++ (encInputs l ++ tail)))) := by
      rw [hdrop, encInput]
      simp [List.append_assoc]
    have l32 : i.prev_hash.reverse.length = 32 := by rw [List.length_reverse, h32]
    have hashEq : pySlice r c 32 = i.prev_hash.reverse := pySlice_of_drop_eq e0 l32
    have e1 := drop_of_drop_eq e0
    rw [l32] at e1
    have l4 : i.output_index.reverse.length = 4 := by rw [List.length_reverse, h4]
    have idxEq : pySlice r (c + 32) 4 = i.output_index.reverse := pySlice_of_drop_eq e1 l4
    have e2 := drop_of_drop_eq e1
    rw [l4, show c + 32 + 4 = c + 36 from rfl] at e2
    have hd36 : r.drop (c + 36)
        = i.script_sig.length :: (i.script_sig ++ (i.sequence ++ (encInputs l ++ tail))) := by
      rw [e2]
      simp
    have varEq : varbyteint_to_int (pySlice r (c + 36) 9) = .ok (i.script_sig.length, 1) :=
      varbyteint_first_byte hd36 hss
    have e2a : r.drop (c + 36)
        = [i.script_sig.length] ++ (i.script_sig ++ (i.sequence ++ (encInputs l ++ tail))) := by
      rw [e2]
      simp
    have e2' : r.drop (c + 36 + 1) = i.script_sig ++ (i.sequence ++ (encInputs l ++ tail)) := by
      have h' := drop_of_drop_eq e2a
      simpa using h'
    have ssEq : pySlice r (c + 36 + 1) i.script_sig.length = i.script_sig :=
      pySlice_of_drop_eq e2' rfl
    have e4 := drop_of_drop_eq e2'
    have seqEq : pySlice r (c + 36 + 1 + i.script_sig.length) 4 = i.sequence :=
      pySlice_of_drop_eq e4 hseq
    have e5 := drop_of_drop_eq e4
    rw [hseq] at e5
    have recEq := ih (fun x hx => hwf x (List.mem_cons_of_mem i hx))
      (c + 36 + 1 + i.script_sig.length + 4) (j + 1) e5
    have harith : c + 36 + 1 + i.script_sig.length + 4 + (encInputs l).length
        = c + (encInputs (i :: l)).length := by
      rw [encInputs_cons, List.length_append, encInput, List.length_append, List.length_append,
        List.length_append, List.length_append, List.length_reverse, List.length_reverse,
        h32, h4, hseq, List.length_singleton]
      omega
    simp only [List.length_cons, parseInputs, hashEq, List.reverse_reverse, idxEq, varEq, ssEq,
      seqEq, recEq, harith, reindexInputs]
    rw [if_neg (by rw [h32]; omega)]

/-- The decoder's output loop inverts the output serialization. -/
lemma parseOutputs_roundtrip (r : List Nat) (l : List Output) (tail : List Nat)
    (hwf : ∀ o ∈ l, WfOutput o) :
    ∀ c, r.drop c = encOutputs l ++ tail →
      parseOutputs r c l.length = .ok (l, c + (encOutputs l).length) := by
  induction l with
  | nil =>
    intro c _
    simp [encOutputs, parseOutputs]
  | cons o l ih =>
    intro c hdrop
    obtain ⟨hamt, hscr⟩ := hwf o (List.mem_cons_self o l)
    rw [encOutputs_cons, List.append_assoc] at hdrop
    have e0 : r.drop c = leBytes o.amount 8
        ++ (([o.script.length] ++ o.script) ++ (encOutputs l ++ tail)) := by
      rw [hdrop, encOutput]
      simp [List.append_assoc]
    have l8 : (leBytes o.amount 8).length = 8 := length_leBytes o.amount 8
    have amtEq : pySlice r c 8 = leBytes o.amount 8 := pySlice_of_drop_eq e0 l8
    have amtVal : beNat ((pySlice r c 8).reverse) = o.amount := by
      rw [amtEq]
      exact leNat_leBytes o.amount 8 (by rw [show 8 * 8 = 64 from rfl]; exact hamt)
    have e1 := drop_of_drop_eq e0
    rw [l8] at e1
    have hd8 : r.drop (c + 8) = o.script.length :: (o.script ++ (encOutputs l ++ tail)) := by
      rw [e1]
      simp
    have varEq : varbyteint_to_int (pySlice r (c + 8) 9) = .ok (o.script.length, 1) :=
      varbyteint_first_byte hd8 hscr
    have e1a : r.drop (c + 8) = [o.script.length] ++ (o.script ++ (encOutputs l ++ tail)) := by
      rw [hd8]
      rfl
    have e2 : r.drop (c + 8 + 1) = o.script ++ (encOutputs l ++ tail) := by
      have h' := drop_of_drop_eq e1a
      simpa using h'
    have scrEq : pySlice r (c + 8 + 1) o.script.length = o.script := pySlice_of_drop_eq e2 rfl
    have e3 := drop_of_drop_eq e2
    have recEq := ih (fun x hx => hwf x (List.mem_cons_of_mem o hx))
      (c + 8 + 1 + o.script.length) e3
    have harith : c + 8 + 1 + o.script.length + (encOutputs l).length
        = c + (encOutputs (o :: l)).length := by
      rw [encOutputs_cons, List.length_append, encOutput, List.length_append,
        List.length_append, l8, List.length_singleton]
      omega
    simp only [List.length_cons, parseOutputs, amtVal, varEq, scrEq, recEq, harith]

lemma length_reindexInputs (j : Nat) (l : List Input) :
    (reindexInputs j l).length = l.length := by
  induction l generalizing j with
  | nil => rfl
  | cons i l ih => simp [reindexInputs, ih]

/-- In full mode the script field is the actual script_sig behind one
`struct.pack('B', ...)` length byte; it succeeds for lengths below 256. -/
lemma rawInputScript_none (E : Externals) (t : Transaction) (i : Input)
    (h : i.script_sig.length ≤ 255) :
    rawInputScript E t none i = .ok ([i.script_sig.length] ++ i.script_sig) := by
  simp [rawInputScript, packB, Nat.lt_succ_of_le h]

lemma rawInputs_none (E : Externals) (t : Transaction) (l : List Input)
    (h : ∀ i ∈ l, i.script_sig.length ≤ 255) :
    rawInputs E t none l = .ok (encInputs l) := by
  induction l with
  | nil => simp [rawInputs, encInputs]
  | cons i l ih =>
    rw [rawInputs, rawInputScript_none E t i (h i (List.mem_cons_self i l)),
      ih (fun x hx => h x (List.mem_cons_of_mem i hx)), encInputs_cons, encInput]

lemma rawOutputs_ok (l : List Output)
    (h : ∀ o ∈ l, o.amount < 2 ^ 64 ∧ o.script.length ≤ 255) :
    rawOutputs l = .ok (encOutputs l) := by
  induction l with
  | nil => simp [rawOutputs, encOutputs]
  | cons o l ih =>
    obtain ⟨hamt, hscr⟩ := h o (List.mem_cons_self o l)
    rw [rawOutputs, packQ, if_pos hamt, packB, if_pos (Nat.lt_succ_of_le hscr),
      ih (fun x hx => h x (List.mem_cons_of_mem o hx)), encOutputs_cons, encOutput]
    simp [List.append_assoc]

/-- Full-mode `Transaction.raw` succeeds on in-range field values and
produces the concatenation of the six wire sections. -/
lemma raw_none_ok (E : Externals) (t : Transaction)
    (hins : ∀ i ∈ t.inputs, i.script_sig.length ≤ 255)
    (houts : ∀ o ∈ t.outputs, o.amount < 2 ^ 64 ∧ o.script.length ≤ 255)
    (hlock : t.locktime < 2 ^ 32) :
    t.raw E none = .ok (t.version.reverse ++ int_to_varbyteint t.inputs.length
      ++ encInputs t.inputs ++ int_to_varbyteint t.outputs.length
      ++ encOutputs t.outputs ++ leBytes t.locktime 4) := by
  rw [Transaction.raw, rawInputs_none E t t.inputs hins, rawOutputs_ok t.outputs houts,
    packL, if_pos hlock]
  simp

/-! ## Claim theorems -/

/-- C1 (amended): full-mode round trip holds for every Transaction built
from valid field values — 4-byte version, 32/4/4-byte input fields, `u64`
amounts, `u32` locktime, non-empty outputs — PROVIDED every `script_sig`
and output `script` is at most 252 bytes long (the code length-prefixes
scripts with a single `struct.pack('B', ...)` byte, which agrees with the
VarInt the decoder reads only up to 252): decoding the full-mode encoding
yields the same version, locktime, outputs and per-input
`prev_tx_hash` / `output_index` / `script_sig` / `sequence`, with ids
reassigned by position. -/
theorem C1_full_roundtrip (E : Externals) (t : Transaction) (r : List Nat)
    (hver : t.version.length = 4)
    (hins : ∀ i ∈ t.inputs, WfInput i)
    (houts : ∀ o ∈ t.outputs, WfOutput o)
    (hne : t.outputs ≠ [])
    (hlock : t.locktime < 2 ^ 32)
    (hnin : t.inputs.length < 2 ^ 64)
    (hnout : t.outputs.length < 2 ^ 64)
    (hraw : t.raw E none = .ok r) :
    deserialize_transaction r =
      .ok ⟨reindexInputs 0 t.inputs, t.outputs, t.locktime, t.version⟩ := by
  have hbytes := raw_none_ok E t
    (fun i hi => le_trans (hins i hi).2.2.2 (by norm_num))
    (fun o ho => ⟨(houts o ho).1, le_trans (houts o ho).2 (by norm_num)⟩) hlock
  rw [hraw] at hbytes
  injection hbytes with hr
  subst hr
  set r := t.version.reverse ++ int_to_varbyteint t.inputs.length
      ++ encInputs t.inputs ++ int_to_varbyteint t.outputs.length
      ++ encOutputs t.outputs ++ leBytes t.locktime 4 with hrdef
  have d0 : r.drop 0 = t.version.reverse ++ (int_to_varbyteint t.inputs.length
      ++ (encInputs t.inputs ++ (int_to_varbyteint t.outputs.length
      ++ (encOutputs t.outputs ++ (leBytes t.locktime 4 ++ []))))) := by
    rw [List.drop_zero, hrdef]
    simp [List.append_assoc]
  have lver : t.version.reverse.length = 4 := by rw [List.length_reverse, hver]
  have verEq : pySlice r 0 4 = t.version.reverse := pySlice_of_drop_eq d0 lver
  have d1 := drop_of_drop_eq d0
  rw [lver, Nat.zero_add] at d1
  have hvar1 : varbyteint_to_int (pySlice r 4 9)
      = .ok (t.inputs.length, (int_to_varbyteint t.inputs.length).length) := by
    rw [pySlice, d1]
    exact varbyteint_roundtrip t.inputs.length hnin _
  have d2 := drop_of_drop_eq d1
  have hparse := parseInputs_roundtrip r t.inputs _ hins
    (4 + (int_to_varbyteint t.inputs.length).length) 0 d2
  have d3 := drop_of_drop_eq d2
  have hvar2 : varbyteint_to_int (pySlice r
      (4 + (int_to_varbyteint t.inputs.length).length + (encInputs t.inputs).length) 9)
      = .ok (t.outputs.length, (int_to_varbyteint t.outputs.length).length) := by
    rw [pySlice, d3]
    exact varbyteint_roundtrip t.outputs.length hnout _
  have d4 := drop_of_drop_eq d3
  have hpout := parseOutputs_roundtrip r t.outputs _ houts
    (4 + (int_to_varbyteint t.inputs.length).length + (encInputs t.inputs).length
      + (int_to_varbyteint t.outputs.length).length) d4
  have d5 := drop_of_drop_eq d4
  have lockEq : pySlice r (4 + (int_to_varbyteint t.inputs.length).length
      + (encInputs t.inputs).length + (int_to_varbyteint t.outputs.length).length
      + (encOutputs t.outputs).length) 4 = leBytes t.locktime 4 :=
    pySlice_of_drop_eq d5 (length_leBytes t.locktime 4)
  have lockVal : beNat ((leBytes t.locktime 4).reverse) = t.locktime :=
    leNat_leBytes t.locktime 4 (by rw [show 8 * 4 = 32 from rfl]; exact hlock)
  simp only [deserialize_transaction, hvar1, hparse, hvar2, hpout, verEq, lockEq, lockVal,
    List.reverse_reverse, length_reindexInputs]
  rw [if_neg (by omega)]
  rw [if_neg hne]

/-- The bytes `T1.raw E0 none` produces. -/
def T1bytes : List Nat :=
  [1, 0, 0, 0, 1] ++ List.replicate 32 0 ++ [0, 0, 0, 0, 0] ++ [0, 0, 0, 0, 1]
    ++ List.replicate 8 0 ++ [0, 0, 0, 0, 0]

/-- Witness for C1: the round trip at the concrete transaction `T1`. -/
theorem C1_witness :
    deserialize_transaction T1bytes =
      .ok ⟨reindexInputs 0 T1.inputs, T1.outputs, T1.locktime, T1.version⟩ :=
  C1_full_roundtrip E0 T1 T1bytes (by decide) (by decide) (by decide) (by decide)
    (by decide) (by decide) (by decide) (by decide)

/-- Counterexample for C1 as stated: for the transaction `T253`, whose
single input has a 253-byte script_sig, the full-mode encoding succeeds
(prefixing the script with the single byte `253`), but decoding it fails —
the decoder reads `253` as a three-byte VarInt, mis-aligns, and dies with
the "no outputs" error — so `decode (encode T)` is not `T`. -/
theorem C1_counterexample :
    T253.raw E0 none = .ok T253bytes ∧
    deserialize_transaction T253bytes =
      .error (Err.transactionError "Error no outputs found in this transaction") ∧
    deserialize_transaction T253bytes ≠
      .ok ⟨reindexInputs 0 T253.inputs, T253.outputs, T253.locktime, T253.version⟩ :=
  ⟨by decide, by decide, by decide⟩

lemma specInputs_eq (l : List Input) (h : ∀ i ∈ l, i.script_sig.length ≤ 252) :
    (l.map (fun i => i.prev_hash.reverse ++ i.output_index.reverse
      ++ int_to_varbyteint i.script_sig.length ++ i.script_sig ++ i.sequence)).flatten
      = encInputs l := by
  induction l with
  | nil => rfl
  | cons i l ih =>
    rw [List.map_cons, List.flatten_cons, ih (fun x hx => h x (List.mem_cons_of_mem i hx)),
      encInputs_cons, encInput, int_to_varbyteint, if_pos (h i (List.mem_cons_self i l))]
    simp [List.append_assoc]

lemma specOutputs_eq (l : List Output) (h : ∀ o ∈ l, o.script.length ≤ 252) :
    (l.map (fun o => leBytes o.amount 8
      ++ int_to_varbyteint o.script.length ++ o.script)).flatten = encOutputs l := by
  induction l with
  | nil => rfl
  | cons o l ih =>
    rw [List.map_cons, List.flatten_cons, ih (fun x hx => h x (List.mem_cons_of_mem o hx)),
      encOutputs_cons, encOutput, int_to_varbyteint, if_pos (h o (List.mem_cons_self o l))]
    simp [List.append_assoc]

/-- C5 (amended): the full-mode encoder length-prefixes every script_sig
and output script with a single `struct.pack('B', ...)` byte, not a
VarInt.  The single byte coincides with the minimal VarInt encoding
exactly for lengths up to 252, so for transactions whose scripts are all
at most 252 bytes the encoding equals the spec's VarInt-prefixed layout
`specFullEncode`; beyond that the claim fails (lengths 253–255 get a bare
prefix byte that is not the VarInt encoding, and lengths above 255 raise
`struct.error`). -/
theorem C5_single_byte_script_len (E : Externals) (t : Transaction)
    (hins : ∀ i ∈ t.inputs, i.script_sig.length ≤ 252)
    (houts : ∀ o ∈ t.outputs, WfOutput o)
    (hlock : t.locktime < 2 ^ 32) :
    t.raw E none = .ok (specFullEncode t) := by
  rw [raw_none_ok E t (fun i hi => le_trans (hins i hi) (by norm_num))
    (fun o ho => ⟨(houts o ho).1, le_trans (houts o ho).2 (by norm_num)⟩) hlock,
    specFullEncode, specInputs_eq t.inputs hins,
    specOutputs_eq t.outputs (fun o ho => (houts o ho).2)]

/-- Witness for C5's amended statement at the concrete transaction `T1`. -/
theorem C5_witness : T1.raw E0 none = .ok (specFullEncode T1) :=
  C5_single_byte_script_len E0 T1 (by decide) (by decide) (by decide)

/-- A transaction whose single input carries a 256-byte script_sig, out of
range for `struct.pack('B', ...)`. -/
def T256 : Transaction :=
  ⟨[⟨List.replicate 32 0, [0, 0, 0, 0], List.replicate 256 0, [0, 0, 0, 0], 0⟩],
    [⟨0, []⟩], 0, [0, 0, 0, 1]⟩

/-- Counterexample for C5 as stated: at script length 253 the emitted
prefix is the bare byte `253`, which differs from the VarInt encoding
`[253, 253, 0]`, and at script length 256 the encoder raises
`struct.error` instead of emitting a VarInt. -/
theorem C5_counterexample :
    T253.raw E0 none = .ok T253bytes ∧ specFullEncode T253 ≠ T253bytes ∧
    T256.raw E0 none = .error Err.structError :=
  ⟨by decide, by decide, by decide⟩

/-! ## Verifier lemmas -/

lemma verifyLoop_ok_true_iff (E : Externals) (t : Transaction) (l : List Input) :
    verifyLoop E t l = .ok true ↔ ∀ i ∈ l, inputPasses E t i = true := by
  induction l with
  | nil => simp [verifyLoop]
  | cons i l ih =>
    cases hp : verifyInputPre E t i with
    | error e =>
      simp only [verifyLoop, hp, List.forall_mem_cons, inputPasses]
      simp
    | ok trip =>
      obtain ⟨s, h, v⟩ := trip
      by_cases hc : E.checkSig v s h
      · simp only [verifyLoop, hp, if_pos hc, List.forall_mem_cons, inputPasses, ih]
        simp [hc]
      · simp only [verifyLoop, hp, if_neg hc, List.forall_mem_cons, inputPasses]
        simp [hc]

lemma verifyLoop_append_pass (E : Externals) (t : Transaction) (pre rest : List Input)
    (h : ∀ j ∈ pre, inputPasses E t j = true) :
    verifyLoop E t (pre ++ rest) = verifyLoop E t rest := by
  induction pre with
  | nil => rfl
  | cons j pre ih =>
    have hj := h j (List.mem_cons_self j pre)
    rw [inputPasses] at hj
    cases hp : verifyInputPre E t j with
    | error e =>
      rw [hp] at hj
      simp at hj
    | ok trip =>
      obtain ⟨s, hh, v⟩ := trip
      rw [hp] at hj
      have hj' : E.checkSig v s hh = true := hj
      rw [List.cons_append, verifyLoop, hp]
      show (if E.checkSig v s hh = true then verifyLoop E t (pre ++ rest) else Except.ok false)
        = verifyLoop E t rest
      rw [if_pos hj', ih (fun x hx => h x (List.mem_cons_of_mem j hx))]

/-- C4: `verify` returns `ok true` exactly when every input's check (the
pre-steps succeeding and the guarded signature check passing) succeeds;
and as soon as the first failing signature check is hit — all earlier
inputs passing — the loop returns `ok false` at once, with no hypothesis
about (and no evaluation of) the inputs after it. -/
theorem C4_verify_iff (E : Externals) (t : Transaction) :
    (t.verify E = .ok true ↔ ∀ i ∈ t.inputs, inputPasses E t i = true) ∧
    (∀ pre i post s h v, t.inputs = pre ++ i :: post →
      (∀ j ∈ pre, inputPasses E t j = true) →
      verifyInputPre E t i = .ok (s, h, v) →
      E.checkSig v s h = false →
      t.verify E = .ok false) := by
  constructor
  · exact verifyLoop_ok_true_iff E t t.inputs
  · intro pre i post s h v hsplit hpre hok hfail
    rw [Transaction.verify, hsplit, verifyLoop_append_pass E t pre _ hpre, verifyLoop, hok]
    show (if E.checkSig v s h = true then verifyLoop E t post else Except.ok false)
      = Except.ok false
    rw [if_neg (by rw [hfail]; exact Bool.false_ne_true)]

/-- Witness for C4: on `T2` (one input whose script_sig parses) with the
always-true signature checker, `verify` returns `ok true`. -/
theorem C4_witness : T2.verify E0 = .ok true :=
  (C4_verify_iff E0 T2).1.mpr (by decide)

/-- C3 (amended): only exceptions raised inside the guarded
`vk.verify_digest(...)` call are swallowed and reported as the boolean
`false`; an exception in any other step of the loop body — building the
signing preimage, parsing the script_sig, decompressing the public key,
or constructing the verifying key — propagates to the caller once its
input is reached (all earlier inputs passing). -/
theorem C3_try_scope (E : Externals) (t : Transaction) (pre : List Input) (i : Input)
    (post : List Input) (hsplit : t.inputs = pre ++ i :: post)
    (hpre : ∀ j ∈ pre, inputPasses E t j = true) :
    (∀ e, verifyInputPre E t i = .error e → t.verify E = .error e) ∧
    (∀ s h v, verifyInputPre E t i = .ok (s, h, v) → E.checkSig v s h = false →
      t.verify E = .ok false) := by
  constructor
  · intro e he
    rw [Transaction.verify, hsplit, verifyLoop_append_pass E t pre _ hpre, verifyLoop, he]
  · intro s h v hok hfail
    rw [Transaction.verify, hsplit, verifyLoop_append_pass E t pre _ hpre, verifyLoop, hok]
    show (if E.checkSig v s h = true then verifyLoop E t post else Except.ok false)
      = Except.ok false
    rw [if_neg (by rw [hfail]; exact Bool.false_ne_true)]

/-- Witness for C3's amended statement: with the failing checker, `T2`'s
verification ends in the swallowed branch: `ok false`, no error. -/
theorem C3_witness : T2.verify Efail = .ok false :=
  (C3_try_scope Efail T2 []
      ⟨List.replicate 32 0, [0, 0, 0, 0], [1, 9, 1, 7], [0, 0, 0, 0], 0⟩ [] rfl
      (by decide)).2
    [] [] [7] (by decide) rfl

/-- Counterexample for C3 as stated: on `T1`, whose input has an EMPTY
script_sig, the `IndexError` raised while parsing the script_sig (during
preimage construction, before the `try:` block) propagates out of
`verify` instead of being swallowed as `false`. -/
theorem C3_counterexample :
    T1.verify E0 = .error Err.indexError ∧
    T1.verify E0 ≠ .ok false :=
  ⟨by decide, by decide⟩

/-! ## Decoder structural lemmas -/

lemma parseInputs_length (rawtx : List Nat) :
    ∀ n c j ins cend, parseInputs rawtx c j n = .ok (ins, cend) → ins.length = n := by
  intro n
  induction n with
  | zero =>
    intro c j ins cend h
    rw [parseInputs] at h
    injection h with h'
    cases h'
    rfl
  | succ n ih =>
    intro c j ins cend h
    rw [parseInputs] at h
    by_cases hh : ((pySlice rawtx c 32).reverse).length = 0
    · rw [if_pos hh] at h
      exact absurd h (by simp)
    · rw [if_neg hh] at h
      cases hv : varbyteint_to_int (pySlice rawtx (c + 36) 9) with
      | error e =>
        simp only [hv] at h
        exact Except.noConfusion h
      | ok p =>
        obtain ⟨ssize, size⟩ := p
        simp only [hv] at h
        cases hr : parseInputs rawtx (c + 36 + size + ssize + 4) (j + 1) n with
        | error e =>
          simp only [hr] at h
          exact Except.noConfusion h
        | ok q =>
          obtain ⟨rest, cend'⟩ := q
          simp only [hr, Except.ok.injEq, Prod.mk.injEq] at h
          obtain ⟨h1, _⟩ := h
          rw [← h1]
          simp [ih _ _ _ _ hr]

/-- C9: decoding fails with the "no outputs found" `TransactionError`
whenever the output-count VarInt reads zero (the input stage having
succeeded), and a successfully decoded Transaction never has an empty
output list. -/
theorem C9_no_outputs :
    (∀ rawtx t, deserialize_transaction rawtx = .ok t → t.outputs ≠ []) ∧
    (∀ rawtx nin size ins c size2,
      varbyteint_to_int (pySlice rawtx 4 9) = .ok (nin, size) →
      parseInputs rawtx (4 + size) 0 nin = .ok (ins, c) →
      varbyteint_to_int (pySlice rawtx c 9) = .ok (0, size2) →
      deserialize_transaction rawtx =
        .error (.transactionError "Error no outputs found in this transaction")) := by
  constructor
  · intro rawtx t h
    rw [deserialize_transaction] at h
    cases hv : varbyteint_to_int (pySlice rawtx 4 9) with
    | error e =>
      simp only [hv] at h
      exact Except.noConfusion h
    | ok p =>
      obtain ⟨nin, size⟩ := p
      simp only [hv] at h
      cases hp : parseInputs rawtx (4 + size) 0 nin with
      | error e =>
        simp only [hp] at h
        exact Except.noConfusion h
      | ok q =>
        obtain ⟨ins, c⟩ := q
        simp only [hp] at h
        by_cases hl : ins.length ≠ nin
        · rw [if_pos hl] at h
          exact Except.noConfusion h
        · rw [if_neg hl] at h
          cases hv2 : varbyteint_to_int (pySlice rawtx c 9) with
          | error e =>
            simp only [hv2] at h
            exact Except.noConfusion h
          | ok p2 =>
            obtain ⟨nout, size2⟩ := p2
            simp only [hv2] at h
            cases hp2 : parseOutputs rawtx (c + size2) nout with
            | error e =>
              simp only [hp2] at h
              exact Except.noConfusion h
            | ok q2 =>
              obtain ⟨outs, c3⟩ := q2
              simp only [hp2] at h
              by_cases ho : outs = []
              · rw [if_pos ho] at h
                exact Except.noConfusion h
              · rw [if_neg ho] at h
                injection h with h'
                rw [← h']
                exact ho
  · intro rawtx nin size ins c size2 hv hp hv2
    have hlen := parseInputs_length rawtx nin (4 + size) 0 ins c hp
    rw [deserialize_transaction]
    simp only [hv, hp, hv2, if_neg (by omega : ¬ ins.length ≠ nin)]
    rw [show parseOutputs rawtx (c + size2) 0 = .ok ([], c + size2) from rfl]
    simp

/-- A well-formed buffer declaring zero inputs and one output. -/
def T0buf : List Nat := [1, 0, 0, 0, 0, 1, 0, 0, 0, 0, 0, 0, 0, 0, 0, 0, 0, 0, 0]

/-- The transaction `T0buf` decodes to: no inputs, one output. -/
def T0 : Transaction := ⟨[], [⟨0, []⟩], 0, [0, 0, 0, 1]⟩

/-- Witness for C9: a decoded transaction's outputs are non-empty, and the
concrete buffer `[1,0,0,0, 0, 0]` (zero inputs, zero outputs) dies with
the "no outputs" error. -/
theorem C9_witness :
    T0.outputs ≠ [] ∧
    deserialize_transaction [1, 0, 0, 0, 0, 0] =
      .error (.transactionError "Error no outputs found in this transaction") :=
  ⟨C9_no_outputs.1 T0buf T0 (by decide),
    C9_no_outputs.2 [1, 0, 0, 0, 0, 0] 0 1 [] 5 1 (by decide) (by decide) (by decide)⟩

/-- C10: there is no input-side non-emptiness check: `verify` on any
transaction with an empty input list returns `ok true` vacuously, and any
buffer whose declared input count is zero that decodes successfully yields
an empty input list. -/
theorem C10_empty_inputs :
    (∀ (E : Externals) (t : Transaction), t.inputs = [] → t.verify E = .ok true) ∧
    (∀ rawtx t size, varbyteint_to_int (pySlice rawtx 4 9) = .ok (0, size) →
      deserialize_transaction rawtx = .ok t → t.inputs = []) := by
  constructor
  · intro E t h
    rw [Transaction.verify, h, verifyLoop]
  · intro rawtx t size hv h
    rw [deserialize_transaction] at h
    simp only [hv] at h
    rw [show parseInputs rawtx (4 + size) 0 0 = .ok ([], 4 + size) from rfl] at h
    simp only [List.length_nil, ne_eq, if_neg] at h
    cases hv2 : varbyteint_to_int (pySlice rawtx (4 + size) 9) with
    | error e =>
      simp only [hv2] at h
      exact Except.noConfusion h
    | ok p2 =>
      obtain ⟨nout, size2⟩ := p2
      simp only [hv2] at h
      cases hp2 : parseOutputs rawtx (4 + size + size2) nout with
      | error e =>
        simp only [hp2] at h
        exact Except.noConfusion h
      | ok q2 =>
        obtain ⟨outs, c3⟩ := q2
        simp only [hp2] at h
        by_cases ho : outs = []
        · rw [if_pos ho] at h
          exact Except.noConfusion h
        · rw [if_neg ho] at h
          injection h with h'
          rw [← h']

/-- Witness for C10: `T0buf` declares zero inputs and decodes successfully
to `T0`; `T0.inputs` is empty and `verify` returns `ok true`. -/
theorem C10_witness : T0.inputs = [] ∧ T0.verify E0 = .ok true :=
  have h := C10_empty_inputs.2 T0buf T0 1 (by decide) (by decide)
  ⟨h, C10_empty_inputs.1 E0 T0 h⟩

lemma parseInputs_hash_missing (rawtx : List Nat) (c j n : Nat) (h : rawtx.length ≤ c) :
    parseInputs rawtx c j (n + 1) = .error (.transactionError
      "Input transaction hash not found. Probably malformed raw transaction") := by
  rw [parseInputs, if_pos (by rw [pySlice_nil h 32]; rfl)]

lemma parseInputs_partial_hash (rawtx : List Nat) (c j n : Nat)
    (h1 : c < rawtx.length) (h2 : rawtx.length ≤ c + 32) :
    parseInputs rawtx c j (n + 1) = .error (.formatError "varbyteint_to_int: empty input") := by
  rw [parseInputs, if_neg (by rw [List.length_reverse]; exact pySlice_nonempty h1)]
  rw [pySlice_nil (by omega : rawtx.length ≤ c + 36) 9]
  rfl

/-- C6 (amended): the "Input transaction hash not found" `TransactionError`
is raised exactly when ZERO bytes remain at an input's hash position; when
1 to 31 bytes remain (a partially present hash), the non-empty slice
passes the code's only check and decoding instead dies later, at the
script-length VarInt read past the end of the buffer, with a different
`FormatError` — not the missing-hash error.  (Stated for the first input;
`nin + 1` is the declared input count.) -/
theorem C6_missing_hash (rawtx : List Nat) (nin size : Nat)
    (hvar : varbyteint_to_int (pySlice rawtx 4 9) = .ok (nin + 1, size)) :
    (rawtx.length ≤ 4 + size →
      deserialize_transaction rawtx = .error (.transactionError
        "Input transaction hash not found. Probably malformed raw transaction")) ∧
    (4 + size < rawtx.length → rawtx.length ≤ 4 + size + 32 →
      deserialize_transaction rawtx =
        .error (.formatError "varbyteint_to_int: empty input")) := by
  constructor
  · intro hle
    rw [deserialize_transaction]
    simp only [hvar, parseInputs_hash_missing rawtx (4 + size) 0 nin hle]
  · intro hlt hle
    rw [deserialize_transaction]
    simp only [hvar, parseInputs_partial_hash rawtx (4 + size) 0 nin hlt hle]

/-- Witness for C6's amended statement: the buffer ending right after the
input count dies with the missing-hash error; the buffer with one stray
hash byte dies with the VarInt error instead. -/
theorem C6_witness :
    deserialize_transaction [1, 0, 0, 0, 1] = .error (.transactionError
      "Input transaction hash not found. Probably malformed raw transaction") ∧
    deserialize_transaction [1, 0, 0, 0, 1, 7] =
      .error (.formatError "varbyteint_to_int: empty input") :=
  ⟨(C6_missing_hash [1, 0, 0, 0, 1] 0 1 (by decide)).1 (by decide),
    (C6_missing_hash [1, 0, 0, 0, 1, 7] 0 1 (by decide)).2 (by decide) (by decide)⟩

/-- Counterexample for C6 as stated: a buffer whose hash field is
partially present (1 byte of 32) fails with the VarInt `FormatError`, not
with the missing-previous-transaction-hash error the claim names. -/
theorem C6_counterexample :
    deserialize_transaction [1, 0, 0, 0, 1, 7] =
      .error (.formatError "varbyteint_to_int: empty input") ∧
    (Err.formatError "varbyteint_to_int: empty input") ≠ (Err.transactionError
      "Input transaction hash not found. Probably malformed raw transaction") :=
  ⟨by decide, by decide⟩

/-- C7 (amended): `parse_script_sig` never raises a `FormatError` for an
oversized push length.  An oversized `len2` silently truncates the public
key slice and parsing SUCCEEDS; a `len1` that pushes the `s[l+1]` indexing
past the end of the script raises a Python `IndexError` (not a
`FormatError`); an oversized `len1` whose index stays in range merely
hands a truncated slice to the DER canonicalizer. -/
theorem C7_push_len (E : Externals) (s : List Nat) (b : Nat) (hb : s.get? 0 = some b) :
    (∀ v, E.convertDerSig ((s.drop 1).take (b - 1)) = .ok v →
      ∀ l2, s.get? (b + 1) = some l2 →
        parse_script_sig E s = .ok (v, (s.drop (b + 2)).take l2)) ∧
    (s.length ≤ b + 1 → ∀ v, E.convertDerSig ((s.drop 1).take (b - 1)) = .ok v →
      parse_script_sig E s = .error Err.indexError) := by
  constructor
  · intro v hv l2 hl2
    simp only [parse_script_sig, getB, hb, hv, hl2]
  · intro hlen v hv
    have hnone : s.get? (b + 1) = none := List.get?_eq_none.mpr hlen
    simp only [parse_script_sig, getB, hb, hv, hnone]

/-- Witness for C7's amended statement: `[1, 9, 200]` declares a 200-byte
public-key push with 0 bytes remaining and still parses successfully
(empty truncated key); `[2, 9]` declares a 2-byte signature push that
sends the `s[l+1]` read out of bounds and raises `IndexError`. -/
theorem C7_witness :
    parse_script_sig E0 [1, 9, 200] = .ok ([], []) ∧
    parse_script_sig E0 [2, 9] = .error Err.indexError :=
  ⟨(C7_push_len E0 [1, 9, 200] 1 (by decide)).1 [] (by decide) 200 (by decide),
    (C7_push_len E0 [2, 9] 2 (by decide)).2 (by decide) [9] (by decide)⟩

/-- Counterexample for C7 as stated: in `[1, 9, 200]` the declared
public-key push length (200) exceeds the 0 remaining bytes, yet the
parser does not fail at all — it returns successfully with a truncated
(empty) key; and the failure mode that does exist for an oversized `len1`
(`[2, 9]`) is an `IndexError`, which is not in the `FormatError`
taxonomy. -/
theorem C7_counterexample :
    parse_script_sig E0 [1, 9, 200] = .ok ([], []) ∧
    (200 : Nat) > (([1, 9, 200] : List Nat).drop 3).length ∧
    parse_script_sig E0 [2, 9] = .error Err.indexError ∧
    Err.indexError.isFormat = false :=
  ⟨by decide, by decide, by decide, by decide⟩

lemma varbyteint_error_isFormat (buf : List Nat) (e : Err)
    (h : varbyteint_to_int buf = .error e) : e.isFormat = true := by
  cases buf with
  | nil =>
    simp only [varbyteint_to_int] at h
    injection h with h'
    rw [← h']
    rfl
  | cons b rest =>
    simp only [varbyteint_to_int] at h
    split_ifs at h
    all_goals
      first
        | exact Except.noConfusion h
        | (injection h with h'; rw [← h']; rfl)

lemma parseInputs_error_isFormat (rawtx : List Nat) :
    ∀ n c j e, parseInputs rawtx c j n = .error e → e.isFormat = true := by
  intro n
  induction n with
  | zero =>
    intro c j e h
    rw [parseInputs] at h
    exact Except.noConfusion h
  | succ n ih =>
    intro c j e h
    rw [parseInputs] at h
    by_cases hh : ((pySlice rawtx c 32).reverse).length = 0
    · rw [if_pos hh] at h
      injection h with h'
      rw [← h']
      rfl
    · rw [if_neg hh] at h
      cases hv : varbyteint_to_int (pySlice rawtx (c + 36) 9) with
      | error e' =>
        simp only [hv] at h
        injection h with h'
        rw [← h']
        exact varbyteint_error_isFormat _ _ hv
      | ok p =>
        obtain ⟨ssize, size⟩ := p
        simp only [hv] at h
        cases hr : parseInputs rawtx (c + 36 + size + ssize + 4) (j + 1) n with
        | error e' =>
          simp only [hr] at h
          injection h with h'
          rw [← h']
          exact ih _ _ _ hr
        | ok q =>
          obtain ⟨rest, cend⟩ := q
          simp only [hr] at h
          exact Except.noConfusion h

lemma parseInputs_cursor_le (rawtx : List Nat) :
    ∀ n c j ins cend, parseInputs rawtx c j n = .ok (ins, cend) → c ≤ cend := by
  intro n
  induction n with
  | zero =>
    intro c j ins cend h
    rw [parseInputs] at h
    injection h with h'
    cases h'
    exact le_refl c
  | succ n ih =>
    intro c j ins cend h
    rw [parseInputs] at h
    by_cases hh : ((pySlice rawtx c 32).reverse).length = 0
    · rw [if_pos hh] at h
      exact Except.noConfusion h
    · rw [if_neg hh] at h
      cases hv : varbyteint_to_int (pySlice rawtx (c + 36) 9) with
      | error e =>
        simp only [hv] at h
        exact Except.noConfusion h
      | ok p =>
        obtain ⟨ssize, size⟩ := p
        simp only [hv] at h
        cases hr : parseInputs rawtx (c + 36 + size + ssize + 4) (j + 1) n with
        | error e =>
          simp only [hr] at h
          exact Except.noConfusion h
        | ok q =>
          obtain ⟨rest, cend'⟩ := q
          simp only [hr, Except.ok.injEq, Prod.mk.injEq] at h
          have := ih _ _ _ _ hr
          omega

/-- When the code's input loop "succeeds" and its final cursor is still
inside the buffer, every one of the `n` declared inputs really was fully
parseable: the loop's silent slice truncations can only happen past the
end of the buffer. -/
lemma parseInputs_strict (rawtx : List Nat) :
    ∀ n c j ins cend, parseInputs rawtx c j n = .ok (ins, cend) → cend ≤ rawtx.length →
      parseableInputs rawtx c n = n := by
  intro n
  induction n with
  | zero =>
    intro c j ins cend _ _
    rfl
  | succ n ih =>
    intro c j ins cend h hle
    rw [parseInputs] at h
    by_cases hh : ((pySlice rawtx c 32).reverse).length = 0
    · rw [if_pos hh] at h
      exact Except.noConfusion h
    · rw [if_neg hh] at h
      cases hv : varbyteint_to_int (pySlice rawtx (c + 36) 9) with
      | error e =>
        simp only [hv] at h
        exact Except.noConfusion h
      | ok p =>
        obtain ⟨ssize, size⟩ := p
        simp only [hv] at h
        cases hr : parseInputs rawtx (c + 36 + size + ssize + 4) (j + 1) n with
        | error e =>
          simp only [hr] at h
          exact Except.noConfusion h
        | ok q =>
          obtain ⟨rest, cend'⟩ := q
          simp only [hr, Except.ok.injEq, Prod.mk.injEq] at h
          obtain ⟨_, h2⟩ := h
          have hcle : c + 36 + size + ssize + 4 ≤ cend' := parseInputs_cursor_le rawtx n _ _ _ _ hr
          have hbound : c + 36 + size + ssize + 4 ≤ rawtx.length := by omega
          have hstrict : strictParseInput rawtx c = some (c + 36 + size + ssize + 4) := by
            rw [strictParseInput, if_pos (by omega)]
            simp only [hv]
            rw [if_pos hbound]
          rw [parseableInputs]
          simp only [hstrict]
          rw [ih (c + 36 + size + ssize + 4) (j + 1) rest cend' hr (by omega)]

/-- C8: whenever the declared VarInt input count exceeds the number of
inputs that can be fully parsed before the buffer ends (the spec-side
count `parseableInputs`), decoding fails with an error in the
`FormatError` taxonomy: either the loop itself raises (missing hash /
truncated VarInt) or the loop's cursor overruns the buffer and the
output-count VarInt read fails on an empty slice. -/
theorem C8_count_mismatch (rawtx : List Nat) (nin size : Nat)
    (hvar : varbyteint_to_int (pySlice rawtx 4 9) = .ok (nin, size))
    (hlt : parseableInputs rawtx (4 + size) nin < nin) :
    ∃ e, deserialize_transaction rawtx = .error e ∧ e.isFormat = true := by
  cases hp : parseInputs rawtx (4 + size) 0 nin with
  | error e =>
    refine ⟨e, ?_, parseInputs_error_isFormat rawtx nin (4 + size) 0 e hp⟩
    rw [deserialize_transaction]
    simp only [hvar, hp]
  | ok q =>
    obtain ⟨ins, cend⟩ := q
    by_cases hle : cend ≤ rawtx.length
    · exact absurd (parseInputs_strict rawtx nin (4 + size) 0 ins cend hp hle) (by omega)
    · have hlen := parseInputs_length rawtx nin (4 + size) 0 ins cend hp
      refine ⟨.formatError "varbyteint_to_int: empty input", ?_, rfl⟩
      rw [deserialize_transaction]
      simp only [hvar, hp, pySlice_nil (by omega : rawtx.length ≤ cend) 9]
      rw [if_neg (by omega : ¬ ins.length ≠ nin)]
      rfl

/-- Witness for C8: the buffer `[1,0,0,0, 1]` declares one input but zero
inputs are fully parseable, and decoding fails with a format error. -/
theorem C8_witness :
    ∃ e, deserialize_transaction [1, 0, 0, 0, 1] = .error e ∧ e.isFormat = true :=
  C8_count_mismatch [1, 0, 0, 0, 1] 1 1 (by decide) (by decide)

/-! ## Signing-preimage lemmas -/

lemma get_of_positional {t : Transaction}
    (hpos : ∀ p (hp : p < t.inputs.length), (t.inputs.get ⟨p, hp⟩).id = p) :
    ∀ i ∈ t.inputs, t.inputs.get? i.id = some i := by
  intro i hi
  obtain ⟨⟨p, hlt⟩, hget⟩ := List.mem_iff_get.mp hi
  have hid : i.id = p := by rw [← hget]; exact hpos p hlt
  rw [hid, List.get?_eq_get hlt, hget]

lemma inputAddress_ok (E : Externals) (i : Input)
    (h0 : 0 < i.script_sig.length)
    (h1 : i.script_sig.headD 0 + 1 < i.script_sig.length) :
    inputAddress E i = .ok (E.hash160u (recoveredPubKey i.script_sig)) := by
  rcases hs : i.script_sig with _ | ⟨a, rest⟩
  · rw [hs] at h0
    exact absurd h0 (by simp)
  · rw [hs] at h1
    have hlt : a + 1 < (a :: rest).length := by simpa using h1
    have hg1 : (a :: rest).get? (a + 1) = some ((a :: rest).get ⟨a + 1, hlt⟩) :=
      List.get?_eq_get hlt
    rw [inputAddress, hs]
    simp only [getB, show (a :: rest).get? 0 = some a from rfl, hg1]
    rw [recoveredPubKey]
    simp only [List.headD_cons, List.getD_eq_getElem?_getD]
    rw [show ((a :: rest)[a + 1]?).getD 0 = (a :: rest).get ⟨a + 1, hlt⟩ from by
      rw [← List.get?_eq_getElem?, hg1]; rfl]

lemma mapM_inputAddress_ok (E : Externals) (l : List Input)
    (hss : ∀ i ∈ l, 0 < i.script_sig.length ∧
      i.script_sig.headD 0 + 1 < i.script_sig.length) :
    l.mapM (inputAddress E)
      = .ok (l.map (fun i => E.hash160u (recoveredPubKey i.script_sig))) := by
  induction l with
  | nil => rfl
  | cons i l ih =>
    obtain ⟨h0, h1⟩ := hss i (List.mem_cons_self i l)
    rw [List.mapM_cons, inputAddress_ok E i h0 h1,
      ih (fun x hx => hss x (List.mem_cons_of_mem i hx))]
    rfl

lemma input_addresses_of_mem (E : Externals) (t : Transaction) (i : Input)
    (hget : t.inputs.get? i.id = some i)
    (hss : ∀ x ∈ t.inputs, 0 < x.script_sig.length ∧
      x.script_sig.headD 0 + 1 < x.script_sig.length) :
    input_addresses E t i.id = .ok (E.hash160u (recoveredPubKey i.script_sig)) := by
  rw [input_addresses, mapM_inputAddress_ok E t.inputs hss]
  simp only [List.get?_map, hget]
  rfl

lemma rawInputScript_sign (E : Externals) (t : Transaction) (k : Nat) (i : Input)
    (hget : t.inputs.get? i.id = some i)
    (hss : ∀ x ∈ t.inputs, 0 < x.script_sig.length ∧
      x.script_sig.headD 0 + 1 < x.script_sig.length) :
    rawInputScript E t (some k) i = .ok (signField E k i) := by
  rw [rawInputScript, signField]
  by_cases hk : k = i.id
  · rw [if_pos hk, if_pos hk.symm, input_addresses_of_mem E t i hget hss]
  · rw [if_neg hk, if_neg (fun hc => hk hc.symm)]

lemma rawInputs_sign (E : Externals) (t : Transaction) (k : Nat) (l : List Input)
    (h : ∀ i ∈ l, rawInputScript E t (some k) i = .ok (signField E k i)) :
    rawInputs E t (some k) l = .ok ((l.map (fun i => i.prev_hash.reverse
      ++ i.output_index.reverse ++ signField E k i ++ i.sequence)).flatten) := by
  induction l with
  | nil => rfl
  | cons i l ih =>
    rw [rawInputs, h i (List.mem_cons_self i l),
      ih (fun x hx => h x (List.mem_cons_of_mem i hx))]
    simp [List.append_assoc]

/-- C2: for every transaction whose input ids are positional (the
invariant `deserialize_transaction` establishes) and whose script_sigs
admit the two indexings of the key-recovery layout, the signing-preimage
encoding `raw(k)` has exactly the claimed structure `specSignPreimage`:
identical to the full-mode encoding except that the input with `id = k`
gets the length-prefixed canonical P2PKH script
`0x19 0x76 0xa9 0x14 ‖ hash160(own recovered public key) ‖ 0x88 0xac`,
every other input's script field is the single byte `0x00`, and the four
SIGHASH_ALL bytes `[1, 0, 0, 0]` follow the locktime; when `hash160`
returns 20 bytes the substituted field is 26 bytes (prefix plus the
25-byte script). -/
theorem C2_sign_preimage (E : Externals) (t : Transaction) (k : Nat)
    (hpos : ∀ p (hp : p < t.inputs.length), (t.inputs.get ⟨p, hp⟩).id = p)
    (hss : ∀ i ∈ t.inputs, 0 < i.script_sig.length ∧
      i.script_sig.headD 0 + 1 < i.script_sig.length)
    (houts : ∀ o ∈ t.outputs, o.amount < 2 ^ 64 ∧ o.script.length ≤ 255)
    (hlock : t.locktime < 2 ^ 32)
    (hlen : ∀ pk, (E.hash160u pk).length = 20) :
    t.raw E (some k) = .ok (specSignPreimage E t k) ∧
    ∀ i ∈ t.inputs, i.id = k → (signField E k i).length = 26 := by
  constructor
  · have hper : ∀ i ∈ t.inputs, rawInputScript E t (some k) i = .ok (signField E k i) :=
      fun i hi => rawInputScript_sign E t k i (get_of_positional hpos i hi) hss
    rw [Transaction.raw, rawInputs_sign E t k t.inputs hper,
      rawOutputs_ok t.outputs houts, packL, if_pos hlock, specSignPreimage]
  · intro i _ hik
    rw [signField, if_pos hik]
    simp [hlen]

/-- Witness for C2: the signing preimage of `T2` for its input 0 matches
the claimed structure. -/
theorem C2_witness : T2.raw E0 (some 0) = .ok (specSignPreimage E0 T2 0) :=
  (C2_sign_preimage E0 T2 0
    (by
      intro p hp
      have hp0 : p = 0 := by
        simp [T2] at hp
        omega
      subst hp0
      rfl)
    (by decide) (by decide) (by decide) (fun _ => rfl)).1
